import Mathlib

/-!
Verification of the canvas annotation editor of this repository.

The development shallowly embeds the data model and the operations of the
editor (`AnnotationEditor` component and the annotations page):
  * geometry and hit-testing (`distanceToLineSegment`, `isPointNearStroke`,
    `isPointInRect`, `findAnnotationAtPoint`),
  * the annotation store operations (`handleMarkComplete`, `handleReply`,
    `handleAddAnnotation`) and the localStorage persistence effects,
  * the viewport transform engine (wheel pan with elastic resistance and
    the debounced settle step),
  * the drawing gesture handlers (`handleWindowMouseMove`,
    `handleWindowMouseUp`, `handleSaveAnnotation`),
  * the image loader's dimension computation.

JavaScript numbers are modelled as exact rationals (`ℚ`); the one square
root of the source (`Math.sqrt` inside `distanceToLineSegment`) is modelled
exactly over `ℝ` (`Real.sqrt`), and the executable hit test decides the
comparison `Real.sqrt d ≤ t` by the equivalent `0 ≤ t ∧ d ≤ t * t`, an
equivalence proved against the real-valued distance.  The JSON string layer
of localStorage is modelled at the level of JSON trees: `JSON.stringify`
and `JSON.parse` are mutually inverse between plain data and strings, so a
stored string is represented by the `Json` tree it denotes, and the
sentinel string check `stored !== '[]'` becomes a comparison with the tree
`Json.arr []`.
-/

namespace ImageAnnotate

/- Let kernel reduction see through the rational arithmetic so that
concrete instances of the theorems below can be checked by `decide`. -/
attribute [local semireducible] Rat.add Rat.mul Rat.sub Rat.inv Rat.ofScientific

/-- `Point` of `types.ts`: canvas-native coordinates. -/
structure Point where
  x : ℚ
  y : ℚ
deriving DecidableEq

instance : Inhabited Point := ⟨⟨0, 0⟩⟩

/-- `BrushStroke` of `types.ts`. -/
structure BrushStroke where
  points : List Point
  brushSize : ℚ
deriving DecidableEq

/-- `Highlight` of `types.ts`: tagged union of `RectHighlight` and
`BrushHighlight`. -/
inductive Highlight where
  | rect (x y width height : ℚ) (color : String)
  | brush (strokes : List BrushStroke) (opacity : ℚ) (color : String)
deriving DecidableEq

/-- The `color` field shared by both variants of `Highlight`. -/
def Highlight.colorOf : Highlight → String
  | .rect _ _ _ _ c => c
  | .brush _ _ c => c

/-- `Reply` of `types.ts`. -/
structure Reply where
  id : String
  text : String
  timestamp : ℚ
deriving DecidableEq

/-- `Annotation` of `types.ts` (named `Annot` here). -/
structure Annot where
  id : String
  text : String
  highlight : Highlight
  color : String
  timestamp : ℚ
  replies : List Reply
  completed : Bool
deriving DecidableEq

/-! ## Geometry / hit-testing (`AnnotationEditor`) -/

/-- The squared distance computed by `distanceToLineSegment` of
`AnnotationEditor` before its final `Math.sqrt`: squared perpendicular
distance from `point` to the segment `p1–p2`, with the projection parameter
clamped to `[0, 1]`, and the squared Euclidean distance to `p1` when
`p1 = p2` (the source's `lengthSquared === 0` branch). -/
def distSqToSegment (point p1 p2 : Point) : ℚ :=
  let dx := p2.x - p1.x
  let dy := p2.y - p1.y
  let lengthSquared := dx * dx + dy * dy
  if lengthSquared = 0 then
    (point.x - p1.x) ^ 2 + (point.y - p1.y) ^ 2
  else
    let t0 := ((point.x - p1.x) * dx + (point.y - p1.y) * dy) / lengthSquared
    let t := max 0 (min 1 t0)
    let projX := p1.x + t * dx
    let projY := p1.y + t * dy
    (point.x - projX) ^ 2 + (point.y - projY) ^ 2

/-- `distanceToLineSegment` of `AnnotationEditor`: the real-valued distance
returned by the source function (its final `Math.sqrt`). -/
noncomputable def distanceToLineSegment (point p1 p2 : Point) : ℝ :=
  Real.sqrt (distSqToSegment point p1 p2 : ℝ)

/-- Decides `Real.sqrt d ≤ t` for `0 ≤ d` without evaluating the square
root: the source's comparison `dist <= threshold`. -/
def sqrtLeQ (d t : ℚ) : Bool :=
  decide (0 ≤ t) && decide (d ≤ t * t)

/-- `isPointNearStroke` of `AnnotationEditor`: the point is within
`brushSize / 2 + 5` of some segment of consecutive stroke points.  The
loop `for i in [0, points.length - 1)` is the `List.range` scan. -/
def isPointNearStroke (point : Point) (stroke : BrushStroke) : Bool :=
  let threshold := stroke.brushSize / 2 + 5
  (List.range (stroke.points.length - 1)).any fun i =>
    sqrtLeQ
      (distSqToSegment point (stroke.points.getD i default)
        (stroke.points.getD (i + 1) default))
      threshold

/-- `isPointInRect` of `AnnotationEditor`: inclusive containment in
`[x, x + width] × [y, y + height]`. -/
def isPointInRect (point : Point) (x y width height : ℚ) : Bool :=
  decide (x ≤ point.x) && decide (point.x ≤ x + width) &&
    decide (y ≤ point.y) && decide (point.y ≤ y + height)

/-- The per-annotation hit test performed inside the loop of
`findAnnotationAtPoint`: rectangle containment, or nearness to any stroke
of a brush highlight. -/
def highlightHitTest (point : Point) : Highlight → Bool
  | .rect x y w h _ => isPointInRect point x y w h
  | .brush strokes _ _ => strokes.any fun stroke => isPointNearStroke point stroke

/-- `findAnnotationAtPoint` of `AnnotationEditor`: filter out completed
annotations, reverse, and return the first hit (or `none`). -/
def findAnnotAtPoint (annotations : List Annot) (point : Point) : Option Annot :=
  ((annotations.filter fun a => !a.completed).reverse).find? fun a =>
    highlightHitTest point a.highlight

/-! ## Annotation store operations (`annotations/page.tsx`) -/

/-- `handleMarkComplete` of the annotations page: map over the list setting
`completed := true` on id match. -/
def markComplete (id : String) (annotations : List Annot) : List Annot :=
  annotations.map fun a => if a.id = id then { a with completed := true } else a

/-! ## Persistence (`annotations/page.tsx` localStorage effects)

The stored string is modelled by the JSON tree it denotes. -/

/-- JSON values, as produced by `JSON.parse`. -/
inductive Json where
  | null
  | bool (b : Bool)
  | num (q : ℚ)
  | str (s : String)
  | arr (elems : List Json)
  | obj (fields : List (String × Json))

/-- `JSON.stringify` of a `Point` object (field order `x`, `y`). -/
def encodePoint (p : Point) : Json :=
  .obj [("x", .num p.x), ("y", .num p.y)]

/-- `JSON.stringify` of a `BrushStroke` object. -/
def encodeStroke (s : BrushStroke) : Json :=
  .obj [("points", .arr (s.points.map encodePoint)), ("brushSize", .num s.brushSize)]

/-- `JSON.stringify` of a `Highlight` object (field orders of the literals
in `handleWindowMouseUp` and `handleSaveAnnotation`). -/
def encodeHighlight : Highlight → Json
  | .rect x y w h c =>
      .obj [("type", .str "rect"), ("x", .num x), ("y", .num y),
        ("width", .num w), ("height", .num h), ("color", .str c)]
  | .brush strokes opacity c =>
      .obj [("type", .str "brush"), ("strokes", .arr (strokes.map encodeStroke)),
        ("opacity", .num opacity), ("color", .str c)]

/-- `JSON.stringify` of a `Reply` object. -/
def encodeReply (r : Reply) : Json :=
  .obj [("id", .str r.id), ("text", .str r.text), ("timestamp", .num r.timestamp)]

/-- `JSON.stringify` of an `Annotation` object (field order of the literal
in `handleSaveAnnotation`). -/
def encodeAnnot (a : Annot) : Json :=
  .obj [("id", .str a.id), ("text", .str a.text),
    ("highlight", encodeHighlight a.highlight), ("color", .str a.color),
    ("timestamp", .num a.timestamp),
    ("replies", .arr (a.replies.map encodeReply)),
    ("completed", .bool a.completed)]

/-- The auto-save write: `JSON.stringify(annotations)`. -/
def save (annotations : List Annot) : Json :=
  .arr (annotations.map encodeAnnot)

/-- Decode a list element-wise, failing if any element fails. -/
def decodeList {α : Type} (dec : Json → Option α) : List Json → Option (List α)
  | [] => some []
  | j :: rest =>
    match dec j, decodeList dec rest with
    | some a, some as => some (a :: as)
    | _, _ => none

/-- Typed reading of a stored `Point`. -/
def decodePoint : Json → Option Point
  | .obj [("x", .num x), ("y", .num y)] => some ⟨x, y⟩
  | _ => none

/-- Typed reading of a stored `BrushStroke`. -/
def decodeStroke : Json → Option BrushStroke
  | .obj [("points", .arr ps), ("brushSize", .num b)] =>
    (decodeList decodePoint ps).map fun points => ⟨points, b⟩
  | _ => none

/-- Typed reading of a stored `Highlight`. -/
def decodeHighlight : Json → Option Highlight
  | .obj [("type", .str "rect"), ("x", .num x), ("y", .num y),
      ("width", .num w), ("height", .num h), ("color", .str c)] =>
    some (.rect x y w h c)
  | .obj [("type", .str "brush"), ("strokes", .arr ss),
      ("opacity", .num opacity), ("color", .str c)] =>
    (decodeList decodeStroke ss).map fun strokes => .brush strokes opacity c
  | _ => none

/-- Typed reading of a stored `Reply`. -/
def decodeReply : Json → Option Reply
  | .obj [("id", .str id), ("text", .str text), ("timestamp", .num ts)] =>
    some ⟨id, text, ts⟩
  | _ => none

/-- Typed reading of a stored `Annotation`. -/
def decodeAnnot : Json → Option Annot
  | .obj [("id", .str id), ("text", .str text), ("highlight", h),
      ("color", .str c), ("timestamp", .num ts), ("replies", .arr rs),
      ("completed", .bool completed)] =>
    (decodeHighlight h).bind fun highlight =>
      (decodeList decodeReply rs).map fun replies =>
        ⟨id, text, highlight, c, ts, replies, completed⟩
  | _ => none

/-- The load effect of the annotations page: accept the parsed value only
when `Array.isArray` holds, else keep the empty list. -/
def load : Json → List Annot
  | .arr xs => (decodeList decodeAnnot xs).getD []
  | _ => []

/-- The auto-save effect of the annotations page: when the in-memory list
is empty and the stored value is present and is not the sentinel `'[]'`
(`Json.arr []`), skip the write (leaving the store as it was); otherwise
write `JSON.stringify(annotations)`.  Result: the stored value after the
effect. -/
def autoSaveEffect (annotations : List Annot) (stored : Option Json) : Option Json :=
  if annotations.length = 0 then
    match stored with
    | some (Json.arr []) => some (save annotations)
    | some j => some j
    | none => some (save annotations)
  else some (save annotations)

/-! ## Viewport transform engine (wheel handler of `AnnotationEditor`) -/

/-- The `transform` state `{ x, y, scale }`. -/
structure Transform where
  x : ℚ
  y : ℚ
  scale : ℚ
deriving DecidableEq

/-- Pan bounds. -/
structure Bounds where
  minX : ℚ
  maxX : ℚ
  minY : ℚ
  maxY : ℚ
deriving DecidableEq

/-- `getBounds` of `AnnotationEditor`: half-overflow of the scaled base
canvas size over the container, per axis.  `canvasW`/`canvasH` are the base
(fit-to-container) canvas display size, `containerW`/`containerH` the
container size. -/
def getBounds (canvasW canvasH containerW containerH scale : ℚ) : Bounds :=
  let overflowX := max 0 ((canvasW * scale - containerW) / 2)
  let overflowY := max 0 ((canvasH * scale - containerH) / 2)
  ⟨-overflowX, overflowX, -overflowY, overflowY⟩

/-- The pan branch of the wheel handler: apply `dx = -deltaX`,
`dy = -deltaY` with elastic resistance `max 0 (1 - overshoot / 200)` when
already beyond a bound and pushing outward. -/
def panStep (canvasW canvasH containerW containerH : ℚ) (prev : Transform)
    (deltaX deltaY : ℚ) : Transform :=
  let bounds := getBounds canvasW canvasH containerW containerH prev.scale
  let dx0 := -deltaX
  let dy0 := -deltaY
  let ox1 := if bounds.maxX < prev.x then prev.x - bounds.maxX else 0
  let overshootX := if prev.x < bounds.minX then bounds.minX - prev.x else ox1
  let oy1 := if bounds.maxY < prev.y then prev.y - bounds.maxY else 0
  let overshootY := if prev.y < bounds.minY then bounds.minY - prev.y else oy1
  let resistanceX := max 0 (1 - overshootX / 200)
  let resistanceY := max 0 (1 - overshootY / 200)
  let dx1 := if bounds.maxX < prev.x ∧ 0 < dx0 then dx0 * resistanceX else dx0
  let dx2 := if prev.x < bounds.minX ∧ dx1 < 0 then dx1 * resistanceX else dx1
  let dy1 := if bounds.maxY < prev.y ∧ 0 < dy0 then dy0 * resistanceY else dy0
  let dy2 := if prev.y < bounds.minY ∧ dy1 < 0 then dy1 * resistanceY else dy1
  { prev with x := prev.x + dx2, y := prev.y + dy2 }

/-- The debounced settle step (the wheel handler's 500 ms timeout): snap
`scale` into `[1, 3]`, recompute bounds at the settled scale, and clamp the
pan — or reset it to `(0, 0)` when the settled scale is exactly `1`. -/
def settle (canvasW canvasH containerW containerH : ℚ) (prev : Transform) : Transform :=
  let s1 := if prev.scale < 1 then 1 else prev.scale
  let targetScale := if 3 < s1 then 3 else s1
  let finalBounds := getBounds canvasW canvasH containerW containerH targetScale
  if targetScale = 1 then
    { x := 0, y := 0, scale := targetScale }
  else
    let x1 := if prev.x < finalBounds.minX then finalBounds.minX else prev.x
    let targetX := if finalBounds.maxX < x1 then finalBounds.maxX else x1
    let y1 := if prev.y < finalBounds.minY then finalBounds.minY else prev.y
    let targetY := if finalBounds.maxY < y1 then finalBounds.maxY else y1
    { x := targetX, y := targetY, scale := targetScale }

/-! ## Drawing gesture handlers (`AnnotationEditor`) -/

/-- The two tools. -/
inductive Tool where
  | select
  | brush
deriving DecidableEq

/-- The drawing-related state of `AnnotationEditor`. -/
structure DrawState where
  activeTool : Tool
  isDrawing : Bool
  dragStart : Option Point
  dragEnd : Option Point
  brushPoints : List Point
  pendingStrokes : List BrushStroke
  pendingHighlight : Option Highlight
  pendingColor : Option String
  showInput : Bool
  inputPosition : Option Point
deriving DecidableEq

/-- The `annotationColors` palette. -/
def annotationColors : List String :=
  ["rgba(255, 180, 0, 0.25)", "rgba(0, 200, 150, 0.25)",
   "rgba(100, 150, 255, 0.25)", "rgba(255, 100, 100, 0.25)",
   "rgba(180, 100, 255, 0.25)", "rgba(100, 220, 220, 0.25)"]

/-- `constrainPopoverPosition` of `AnnotationEditor`. -/
def constrainPopoverPosition (containerW containerH : ℚ) (pos : Point) : Point :=
  let x1 := if containerW - 16 < pos.x + 256 then containerW - 256 - 16 else pos.x
  let cx := if x1 < 16 then 16 else x1
  let y1 := if containerH - 16 < pos.y + 180 then containerH - 180 - 16 else pos.y
  let cy := if y1 < 16 then 16 else y1
  ⟨cx, cy⟩

/-- `getCanvasPos` of `AnnotationEditor`: client coordinates relative to
the canvas bounding rect, scaled to the canvas-native resolution. -/
def getCanvasPos (clientX clientY rectLeft rectTop rectW rectH canvasW canvasH : ℚ) :
    Point :=
  ⟨(clientX - rectLeft) * (canvasW / rectW), (clientY - rectTop) * (canvasH / rectH)⟩

/-- `handleWindowMouseMove` of `AnnotationEditor`: compute the canvas
position clamped to `[0, canvasW] × [0, canvasH]`, then extend the drag
(select: `dragEnd`; brush: append to `brushPoints`). -/
def handleWindowMouseMove (canvasW canvasH rectW rectH clientX clientY
    rectLeft rectTop : ℚ) (s : DrawState) : DrawState :=
  let scaleX := canvasW / rectW
  let scaleY := canvasH / rectH
  let rawX := clientX - rectLeft
  let rawY := clientY - rectTop
  let pos : Point := ⟨max 0 (min canvasW (rawX * scaleX)),
    max 0 (min canvasH (rawY * scaleY))⟩
  if s.activeTool = Tool.select ∧ s.dragStart.isSome then
    { s with dragEnd := some pos }
  else if s.activeTool = Tool.brush then
    { s with brushPoints := s.brushPoints ++ [pos] }
  else s

/-- `handleWindowMouseUp` of `AnnotationEditor`: stage a rectangle when the
drag is strictly larger than 10×10, or append a brush stroke when more
than 2 points were collected; always clear the drag state. -/
def handleWindowMouseUp (screenPos : Point) (annCount : ℕ) (brushSize : ℚ)
    (containerW containerH : ℚ) (s : DrawState) : DrawState :=
  let nextColor := s.pendingColor.getD
    (annotationColors.getD (annCount % annotationColors.length) "")
  let s0 := { s with isDrawing := false }
  let s1 : DrawState :=
    match s.activeTool with
    | Tool.select =>
      match s.dragStart, s.dragEnd with
      | some ds, some de =>
        let x := min ds.x de.x
        let y := min ds.y de.y
        let w := |de.x - ds.x|
        let h := |de.y - ds.y|
        if 10 < w ∧ 10 < h then
          { s0 with
            pendingHighlight := some (.rect x y w h nextColor),
            showInput := true,
            inputPosition :=
              some (constrainPopoverPosition containerW containerH screenPos) }
        else s0
      | _, _ => s0
    | Tool.brush =>
      if 2 < s.brushPoints.length then
        let s2 := { s0 with
          pendingStrokes := s0.pendingStrokes ++ [⟨s.brushPoints, brushSize⟩] }
        if s.showInput then s2
        else
          { s2 with
            showInput := true,
            inputPosition :=
              some (constrainPopoverPosition containerW containerH screenPos) }
      else s0
  { s1 with dragStart := none, dragEnd := none, brushPoints := [] }

/-- `handleSaveAnnotation` of `AnnotationEditor`: commit the staged
highlight (pending strokes with their color, else the pending rectangle)
into a new annotation and clear the staging state.  `now` is `Date.now()`.
Returns the committed annotation (if any) and the new state. -/
def handleSaveAnnot (inputText : String) (brushOpacity : ℚ) (now : ℤ)
    (s : DrawState) : Option Annot × DrawState :=
  let highlight? : Option Highlight :=
    match s.pendingStrokes, s.pendingColor with
    | [], _ => s.pendingHighlight
    | _ :: _, some c => some (.brush s.pendingStrokes brushOpacity c)
    | _ :: _, none => s.pendingHighlight
  match highlight? with
  | none => (none, s)
  | some highlight =>
    let a : Annot :=
      { id := toString now, text := inputText.trim, highlight := highlight,
        color := highlight.colorOf, timestamp := (now : ℚ), replies := [],
        completed := false }
    (some a,
      { s with
        pendingHighlight := none, pendingStrokes := [],
        pendingColor := none, showInput := false, inputPosition := none })

/-! ## Image loader dimensions (`loadImage` of `AnnotationEditor`) -/

/-- The working bitmap dimensions computed in `img.onload`: downscale by
`min(8192 / width, 8192 / height)` with `Math.floor` when either dimension
exceeds `MAX_CANVAS_DIMENSION = 8192`, else keep the original size. -/
def computeFinalDims (w h : ℕ) : ℕ × ℕ :=
  if 8192 < w ∨ 8192 < h then
    let scale : ℚ := min (8192 / (w : ℚ)) (8192 / (h : ℚ))
    (⌊(w : ℚ) * scale⌋₊, ⌊(h : ℚ) * scale⌋₊)
  else (w, h)

/-! ## In-bounds predicates (for the committed-geometry invariant) -/

/-- A canvas-native point within the bitmap `[0, canvasW] × [0, canvasH]`. -/
def pointIn (canvasW canvasH : ℚ) (p : Point) : Prop :=
  0 ≤ p.x ∧ p.x ≤ canvasW ∧ 0 ≤ p.y ∧ p.y ≤ canvasH

instance (canvasW canvasH : ℚ) (p : Point) : Decidable (pointIn canvasW canvasH p) :=
  inferInstanceAs (Decidable (_ ∧ _ ∧ _ ∧ _))

/-- Every point of every stroke within the bitmap. -/
def strokesIn (canvasW canvasH : ℚ) (strokes : List BrushStroke) : Prop :=
  ∀ stroke ∈ strokes, ∀ q ∈ stroke.points, pointIn canvasW canvasH q

instance (canvasW canvasH : ℚ) (strokes : List BrushStroke) :
    Decidable (strokesIn canvasW canvasH strokes) :=
  inferInstanceAs (Decidable (∀ stroke ∈ strokes, ∀ q ∈ stroke.points, _))

/-- The geometry of a highlight within the bitmap: for a rectangle both
corners, for a brush every stroke point. -/
def highlightIn (canvasW canvasH : ℚ) : Highlight → Prop
  | .rect x y w h _ =>
    pointIn canvasW canvasH ⟨x, y⟩ ∧ pointIn canvasW canvasH ⟨x + w, y + h⟩
  | .brush strokes _ _ => strokesIn canvasW canvasH strokes

instance (canvasW canvasH : ℚ) : (hl : Highlight) →
    Decidable (highlightIn canvasW canvasH hl)
  | .rect x y w h _ =>
    inferInstanceAs (Decidable (pointIn canvasW canvasH ⟨x, y⟩ ∧
      pointIn canvasW canvasH ⟨x + w, y + h⟩))
  | .brush strokes _ _ => inferInstanceAs (Decidable (strokesIn canvasW canvasH strokes))

/-- Optional point in bounds (no constraint when absent). -/
def optPointIn (canvasW canvasH : ℚ) : Option Point → Prop
  | none => True
  | some p => pointIn canvasW canvasH p

instance (canvasW canvasH : ℚ) : (o : Option Point) →
    Decidable (optPointIn canvasW canvasH o)
  | none => .isTrue trivial
  | some p => inferInstanceAs (Decidable (pointIn canvasW canvasH p))

/-- Optional highlight in bounds (no constraint when absent). -/
def optHighlightIn (canvasW canvasH : ℚ) : Option Highlight → Prop
  | none => True
  | some hl => highlightIn canvasW canvasH hl

instance (canvasW canvasH : ℚ) : (o : Option Highlight) →
    Decidable (optHighlightIn canvasW canvasH o)
  | none => .isTrue trivial
  | some hl => inferInstanceAs (Decidable (highlightIn canvasW canvasH hl))

/-- All drag and staging geometry of a drawing state within the bitmap. -/
def stateIn (canvasW canvasH : ℚ) (s : DrawState) : Prop :=
  optPointIn canvasW canvasH s.dragStart ∧ optPointIn canvasW canvasH s.dragEnd ∧
    (∀ q ∈ s.brushPoints, pointIn canvasW canvasH q) ∧
    strokesIn canvasW canvasH s.pendingStrokes ∧
    optHighlightIn canvasW canvasH s.pendingHighlight

instance (canvasW canvasH : ℚ) (s : DrawState) :
    Decidable (stateIn canvasW canvasH s) :=
  inferInstanceAs (Decidable (_ ∧ _ ∧ _ ∧ _ ∧ _))

/-! ## Helper lemmas -/

theorem decodeList_map_encode {α : Type} (dec : Json → Option α) (enc : α → Json)
    (h : ∀ a, dec (enc a) = some a) :
    ∀ l : List α, decodeList dec (l.map enc) = some l := by
  intro l
  induction l with
  | nil => rfl
  | cons a as ih => simp [decodeList, h, ih]

theorem decodePoint_encode (p : Point) : decodePoint (encodePoint p) = some p := rfl

theorem decodeStroke_encode (s : BrushStroke) :
    decodeStroke (encodeStroke s) = some s := by
  cases s with
  | mk points brushSize =>
    simp [encodeStroke, decodeStroke,
      decodeList_map_encode decodePoint encodePoint decodePoint_encode]

theorem decodeHighlight_encode (hl : Highlight) :
    decodeHighlight (encodeHighlight hl) = some hl := by
  cases hl with
  | rect x y w h c => rfl
  | brush strokes opacity c =>
    simp [encodeHighlight, decodeHighlight,
      decodeList_map_encode decodeStroke encodeStroke decodeStroke_encode]

theorem decodeReply_encode (r : Reply) : decodeReply (encodeReply r) = some r := rfl

theorem decodeAnnot_encode (a : Annot) : decodeAnnot (encodeAnnot a) = some a := by
  cases a with
  | mk id text highlight color timestamp replies completed =>
    simp [encodeAnnot, decodeAnnot, decodeHighlight_encode,
      decodeList_map_encode decodeReply encodeReply decodeReply_encode]

/-! ## Claim theorems -/

/-- C2: loading after saving returns the same annotation list, with order
and every field of every annotation preserved. -/
theorem load_save_roundtrip (L : List Annot) : load (save L) = L := by
  simp [load, save, decodeList_map_encode decodeAnnot encodeAnnot decodeAnnot_encode]

/-- C8: `markComplete id` sets `completed` on the annotations whose id
matches and changes nothing else: length and order are preserved, each
element is the conditional update of the old element, the operation is
idempotent, and a list with no matching id is left unchanged. -/
theorem markComplete_spec (id : String) (l : List Annot) :
    (markComplete id l).length = l.length
    ∧ (∀ i : ℕ, (markComplete id l)[i]? =
        (l[i]?).map fun a => if a.id = id then { a with completed := true } else a)
    ∧ markComplete id (markComplete id l) = markComplete id l
    ∧ ((∀ a ∈ l, a.id ≠ id) → markComplete id l = l) := by
  refine ⟨List.length_map _ _, fun i => List.getElem?_map .., ?_, ?_⟩
  · unfold markComplete
    rw [List.map_map]
    refine List.map_congr_left fun a _ => ?_
    by_cases h : a.id = id <;> simp [h]
  · intro h
    unfold markComplete
    conv_rhs => rw [← List.map_id l]
    exact List.map_congr_left fun a ha => if_neg (h a ha)

/-- C8 witness: the concrete behaviour of `markComplete` on a two-element
list, including the no-match case. -/
theorem markComplete_spec_witness :
    (∀ a ∈ [(⟨"1", "t", .rect 0 0 10 10 "c", "c", 1, [], false⟩ : Annot)],
        a.id ≠ "9")
    ∧ markComplete "9" [(⟨"1", "t", .rect 0 0 10 10 "c", "c", 1, [], false⟩ : Annot)]
        = [(⟨"1", "t", .rect 0 0 10 10 "c", "c", 1, [], false⟩ : Annot)] :=
  ⟨by decide,
    (markComplete_spec "9"
      [(⟨"1", "t", .rect 0 0 10 10 "c", "c", 1, [], false⟩ : Annot)]).2.2.2
      (by decide)⟩

/-- C6 counterexample: clearing the in-memory store to the empty list
while a non-empty list is persisted is not written through — the effect
leaves the previously stored data, and the store does not become the
serialized empty list. -/
theorem autoSaveEffect_clear_counterexample :
    autoSaveEffect []
        (some (save [(⟨"1", "t", .rect 0 0 10 10 "c", "c", 1, [], false⟩ : Annot)]))
      = some (save [(⟨"1", "t", .rect 0 0 10 10 "c", "c", 1, [], false⟩ : Annot)])
    ∧ autoSaveEffect []
        (some (save [(⟨"1", "t", .rect 0 0 10 10 "c", "c", 1, [], false⟩ : Annot)]))
      ≠ some (save ([] : List Annot)) := by
  refine ⟨rfl, ?_⟩
  simp [autoSaveEffect, save, encodeAnnot]

/-- C6 (amended): a write happens on every store change, except that it is
skipped whenever — not only once at startup — the in-memory list is empty
and the persisted value is present and differs from the empty-list
sentinel; in that case the previously stored value is kept. -/
theorem autoSaveEffect_spec (anns : List Annot) (stored : Option Json) :
    (anns ≠ [] → autoSaveEffect anns stored = some (save anns))
    ∧ (anns = [] → (stored = none ∨ stored = some (Json.arr [])) →
        autoSaveEffect anns stored = some (save anns))
    ∧ (∀ j, anns = [] → stored = some j → j ≠ Json.arr [] →
        autoSaveEffect anns stored = some j) := by
  refine ⟨?_, ?_, ?_⟩
  · intro h
    unfold autoSaveEffect
    rw [if_neg fun hc => h (List.length_eq_zero.mp hc)]
  · rintro rfl (rfl | rfl) <;> rfl
  · rintro j rfl rfl hj
    unfold autoSaveEffect
    simp only [List.length_nil, reduceIte]

/-- C6 witness: a non-empty store change is written through, and an empty
store change with a stored value other than the sentinel is skipped. -/
theorem autoSaveEffect_spec_witness :
    ([(⟨"1", "t", .rect 0 0 10 10 "c", "c", 1, [], false⟩ : Annot)] ≠ []
      ∧ autoSaveEffect [(⟨"1", "t", .rect 0 0 10 10 "c", "c", 1, [], false⟩ : Annot)]
          (some (Json.str "old"))
        = some (save [(⟨"1", "t", .rect 0 0 10 10 "c", "c", 1, [], false⟩ : Annot)]))
    ∧ (Json.str "old" ≠ Json.arr []
      ∧ autoSaveEffect [] (some (Json.str "old")) = some (Json.str "old")) :=
  ⟨⟨by decide,
    (autoSaveEffect_spec
      [(⟨"1", "t", .rect 0 0 10 10 "c", "c", 1, [], false⟩ : Annot)]
      (some (Json.str "old"))).1 (by decide)⟩,
   ⟨by simp,
    (autoSaveEffect_spec [] (some (Json.str "old"))).2.2 (Json.str "old") rfl rfl
      (by simp)⟩⟩

/-- C9: an image with both dimensions at most 8192 is used unchanged; an
image with a dimension beyond 8192 is scaled by
`min (8192 / width) (8192 / height)` (floored), the larger result is
exactly 8192, and each result is within 1 px of the exact scaled value. -/
theorem computeFinalDims_spec (w h : ℕ) (hw : 0 < w) (hh : 0 < h) :
    (w ≤ 8192 ∧ h ≤ 8192 → computeFinalDims w h = (w, h))
    ∧ (8192 < w ∨ 8192 < h →
        computeFinalDims w h =
          (⌊(w : ℚ) * min (8192 / (w : ℚ)) (8192 / (h : ℚ))⌋₊,
           ⌊(h : ℚ) * min (8192 / (w : ℚ)) (8192 / (h : ℚ))⌋₊)
        ∧ max (computeFinalDims w h).1 (computeFinalDims w h).2 = 8192
        ∧ ((w : ℚ) * min (8192 / (w : ℚ)) (8192 / (h : ℚ)) - 1
              < ((computeFinalDims w h).1 : ℚ)
            ∧ ((computeFinalDims w h).1 : ℚ)
              ≤ (w : ℚ) * min (8192 / (w : ℚ)) (8192 / (h : ℚ)))
        ∧ ((h : ℚ) * min (8192 / (w : ℚ)) (8192 / (h : ℚ)) - 1
              < ((computeFinalDims w h).2 : ℚ)
            ∧ ((computeFinalDims w h).2 : ℚ)
              ≤ (h : ℚ) * min (8192 / (w : ℚ)) (8192 / (h : ℚ)))) := by
  have hW : (0 : ℚ) < (w : ℚ) := by exact_mod_cast hw
  have hH : (0 : ℚ) < (h : ℚ) := by exact_mod_cast hh
  constructor
  · intro hsmall
    unfold computeFinalDims
    rw [if_neg (by omega)]
  · intro hbig
    have heq : computeFinalDims w h =
        (⌊(w : ℚ) * min (8192 / (w : ℚ)) (8192 / (h : ℚ))⌋₊,
         ⌊(h : ℚ) * min (8192 / (w : ℚ)) (8192 / (h : ℚ))⌋₊) := by
      unfold computeFinalDims
      rw [if_pos hbig]
    have hspos : (0 : ℚ) ≤ min (8192 / (w : ℚ)) (8192 / (h : ℚ)) :=
      le_min (by positivity) (by positivity)
    have hWs : (0 : ℚ) ≤ (w : ℚ) * min (8192 / (w : ℚ)) (8192 / (h : ℚ)) := by positivity
    have hHs : (0 : ℚ) ≤ (h : ℚ) * min (8192 / (w : ℚ)) (8192 / (h : ℚ)) := by positivity
    have hmax : max (computeFinalDims w h).1 (computeFinalDims w h).2 = 8192 := by
      rw [heq]
      rcases le_total w h with hwh | hwh
      · have hWH : (w : ℚ) ≤ (h : ℚ) := by exact_mod_cast hwh
        have hmin : min (8192 / (w : ℚ)) (8192 / (h : ℚ)) = 8192 / (h : ℚ) :=
          min_eq_right (div_le_div_of_nonneg_left (by norm_num) hW hWH)
        have hid : (h : ℚ) * (8192 / (h : ℚ)) = 8192 := by field_simp
        have hle : (w : ℚ) * (8192 / (h : ℚ)) ≤ 8192 := by
          rw [← mul_div_assoc, div_le_iff₀ hH]
          nlinarith
        simp only [hmin]
        rw [hid]
        have h2 : ⌊(8192 : ℚ)⌋₊ = 8192 := by
          rw [show (8192 : ℚ) = ((8192 : ℕ) : ℚ) by norm_num, Nat.floor_natCast]
        rw [h2]
        exact max_eq_right (by rw [← h2]; exact Nat.floor_le_floor hle)
      · have hWH : (h : ℚ) ≤ (w : ℚ) := by exact_mod_cast hwh
        have hmin : min (8192 / (w : ℚ)) (8192 / (h : ℚ)) = 8192 / (w : ℚ) :=
          min_eq_left (div_le_div_of_nonneg_left (by norm_num) hH hWH)
        have hid : (w : ℚ) * (8192 / (w : ℚ)) = 8192 := by field_simp
        have hle : (h : ℚ) * (8192 / (w : ℚ)) ≤ 8192 := by
          rw [← mul_div_assoc, div_le_iff₀ hW]
          nlinarith
        simp only [hmin]
        rw [hid]
        have h2 : ⌊(8192 : ℚ)⌋₊ = 8192 := by
          rw [show (8192 : ℚ) = ((8192 : ℕ) : ℚ) by norm_num, Nat.floor_natCast]
        rw [h2]
        exact max_eq_left (by rw [← h2]; exact Nat.floor_le_floor hle)
    refine ⟨heq, hmax, ?_, ?_⟩
    · rw [heq]
      refine ⟨?_, Nat.floor_le hWs⟩
      have := Nat.lt_floor_add_one ((w : ℚ) * min (8192 / (w : ℚ)) (8192 / (h : ℚ)))
      push_cast
      push_cast at this
      linarith
    · rw [heq]
      refine ⟨?_, Nat.floor_le hHs⟩
      have := Nat.lt_floor_add_one ((h : ℚ) * min (8192 / (w : ℚ)) (8192 / (h : ℚ)))
      push_cast
      push_cast at this
      linarith

/-- C9 witness: a 500×400 image is kept unchanged; a 12000×8000 image is
downscaled with the longer axis landing exactly on 8192. -/
theorem computeFinalDims_spec_witness :
    ((500 : ℕ) ≤ 8192 ∧ (400 : ℕ) ≤ 8192 ∧ computeFinalDims 500 400 = (500, 400))
    ∧ ((8192 : ℕ) < 12000
      ∧ max (computeFinalDims 12000 8000).1 (computeFinalDims 12000 8000).2 = 8192) :=
  ⟨⟨by decide, by decide,
    (computeFinalDims_spec 500 400 (by decide) (by decide)).1 ⟨by decide, by decide⟩⟩,
   ⟨by decide,
    ((computeFinalDims_spec 12000 8000 (by decide) (by decide)).2
      (Or.inl (by decide))).2.1⟩⟩

theorem clamp_chain (lo hi v : ℚ) (h : lo ≤ hi) :
    (if hi < (if v < lo then lo else v) then hi else (if v < lo then lo else v))
      = max lo (min hi v) := by
  simp only [max_def, min_def]
  split_ifs <;> linarith

theorem snap_chain (v : ℚ) :
    (if 3 < (if v < 1 then 1 else v) then 3 else (if v < 1 then 1 else v))
      = min 3 (max 1 v) := by
  simp only [max_def, min_def]
  split_ifs <;> linarith

/-- C3: the settle step clamps the scale into `[1, 3]`; the pan becomes
`(0, 0)` when the settled scale is exactly 1, and otherwise is clamped into
the pan bounds recomputed at the settled scale. -/
theorem settle_spec (cw ch tw th x y sc : ℚ) :
    settle cw ch tw th ⟨x, y, sc⟩ =
      ⟨if min 3 (max 1 sc) = 1 then 0
          else max (-(max 0 ((cw * min 3 (max 1 sc) - tw) / 2)))
            (min (max 0 ((cw * min 3 (max 1 sc) - tw) / 2)) x),
        if min 3 (max 1 sc) = 1 then 0
          else max (-(max 0 ((ch * min 3 (max 1 sc) - th) / 2)))
            (min (max 0 ((ch * min 3 (max 1 sc) - th) / 2)) y),
        min 3 (max 1 sc)⟩ := by
  unfold settle getBounds
  dsimp only
  rw [snap_chain]
  by_cases h1 : min 3 (max 1 sc) = 1
  · simp [h1]
  · have hox : -(max 0 ((cw * min 3 (max 1 sc) - tw) / 2))
        ≤ max 0 ((cw * min 3 (max 1 sc) - tw) / 2) := by
      have := le_max_left (0 : ℚ) ((cw * min 3 (max 1 sc) - tw) / 2)
      linarith
    have hoy : -(max 0 ((ch * min 3 (max 1 sc) - th) / 2))
        ≤ max 0 ((ch * min 3 (max 1 sc) - th) / 2) := by
      have := le_max_left (0 : ℚ) ((ch * min 3 (max 1 sc) - th) / 2)
      linarith
    rw [if_neg h1, clamp_chain _ _ x hox, clamp_chain _ _ y hoy]
    simp [h1]

/-- C4: a pan wheel step applies the raw delta scaled by
`max 0 (1 - overshoot / 200)` only when the pan is already beyond a bound
and the delta pushes further outward; within bounds or moving back toward
the bound the delta is applied unscaled.  In particular, at overshoot
exactly 200 an additional outward delta produces zero displacement, and
the scale is unchanged. -/
theorem panStep_spec (cw ch tw th x y sc dX dY : ℚ) :
    ((panStep cw ch tw th ⟨x, y, sc⟩ dX dY).x =
      x + (if max 0 ((cw * sc - tw) / 2) < x ∧ 0 < -dX then
            -dX * max 0 (1 - (x - max 0 ((cw * sc - tw) / 2)) / 200)
          else if x < -(max 0 ((cw * sc - tw) / 2)) ∧ -dX < 0 then
            -dX * max 0 (1 - (-(max 0 ((cw * sc - tw) / 2)) - x) / 200)
          else -dX))
    ∧ ((panStep cw ch tw th ⟨x, y, sc⟩ dX dY).y =
      y + (if max 0 ((ch * sc - th) / 2) < y ∧ 0 < -dY then
            -dY * max 0 (1 - (y - max 0 ((ch * sc - th) / 2)) / 200)
          else if y < -(max 0 ((ch * sc - th) / 2)) ∧ -dY < 0 then
            -dY * max 0 (1 - (-(max 0 ((ch * sc - th) / 2)) - y) / 200)
          else -dY))
    ∧ (x = max 0 ((cw * sc - tw) / 2) + 200 → 0 < -dX →
        (panStep cw ch tw th ⟨x, y, sc⟩ dX dY).x = x)
    ∧ (y = max 0 ((ch * sc - th) / 2) + 200 → 0 < -dY →
        (panStep cw ch tw th ⟨x, y, sc⟩ dX dY).y = y)
    ∧ (panStep cw ch tw th ⟨x, y, sc⟩ dX dY).scale = sc := by
  have hx : (panStep cw ch tw th ⟨x, y, sc⟩ dX dY).x =
      x + (if max 0 ((cw * sc - tw) / 2) < x ∧ 0 < -dX then
            -dX * max 0 (1 - (x - max 0 ((cw * sc - tw) / 2)) / 200)
          else if x < -(max 0 ((cw * sc - tw) / 2)) ∧ -dX < 0 then
            -dX * max 0 (1 - (-(max 0 ((cw * sc - tw) / 2)) - x) / 200)
          else -dX) := by
    have ho : (0 : ℚ) ≤ max 0 ((cw * sc - tw) / 2) := le_max_left 0 _
    unfold panStep getBounds
    dsimp only
    by_cases hA : max 0 ((cw * sc - tw) / 2) < x
    · have hnB : ¬ x < -(max 0 ((cw * sc - tw) / 2)) := by linarith
      by_cases hd : 0 < -dX <;> simp [hA, hnB, hd]
    · by_cases hB : x < -(max 0 ((cw * sc - tw) / 2))
      · by_cases hd : -dX < 0 <;> simp [hA, hB, hd]
      · simp [hA, hB]
  have hy : (panStep cw ch tw th ⟨x, y, sc⟩ dX dY).y =
      y + (if max 0 ((ch * sc - th) / 2) < y ∧ 0 < -dY then
            -dY * max 0 (1 - (y - max 0 ((ch * sc - th) / 2)) / 200)
          else if y < -(max 0 ((ch * sc - th) / 2)) ∧ -dY < 0 then
            -dY * max 0 (1 - (-(max 0 ((ch * sc - th) / 2)) - y) / 200)
          else -dY) := by
    have ho : (0 : ℚ) ≤ max 0 ((ch * sc - th) / 2) := le_max_left 0 _
    unfold panStep getBounds
    dsimp only
    by_cases hA : max 0 ((ch * sc - th) / 2) < y
    · have hnB : ¬ y < -(max 0 ((ch * sc - th) / 2)) := by linarith
      by_cases hd : 0 < -dY <;> simp [hA, hnB, hd]
    · by_cases hB : y < -(max 0 ((ch * sc - th) / 2))
      · by_cases hd : -dY < 0 <;> simp [hA, hB, hd]
      · simp [hA, hB]
  refine ⟨hx, hy, ?_, ?_, rfl⟩
  · intro hxo hdx
    rw [hx, if_pos ⟨by linarith, hdx⟩, hxo]
    norm_num
  · intro hyo hdy
    rw [hy, if_pos ⟨by linarith, hdy⟩, hyo]
    norm_num

/-- C4 witness: with pan bounds `±100`, a pan at `300` (overshoot exactly
200) moves no further under an additional outward delta. -/
theorem panStep_spec_witness :
    ((300 : ℚ) = max 0 ((300 * 1 - 100) / 2) + 200 ∧ (0 : ℚ) < -(-10 : ℚ)
      ∧ (panStep 300 300 100 100 ⟨300, 0, 1⟩ (-10) 0).x = 300) :=
  ⟨by decide, by decide,
    (panStep_spec 300 300 100 100 300 0 1 (-10) 0).2.2.1 (by decide) (by decide)⟩

theorem find?_append_of_forall_false {α : Type} (p : α → Bool) (xs ys : List α)
    (h : ∀ x ∈ xs, p x = false) : (xs ++ ys).find? p = ys.find? p := by
  induction xs with
  | nil => rfl
  | cons a as ih =>
    rw [List.cons_append, List.find?_cons_of_neg _ (by simp [h a (List.mem_cons_self a as)])]
    exact ih fun x hx => h x (List.mem_cons_of_mem a hx)

/-- C1: `findAnnotationAtPoint` returns the hit annotation whose
non-completed successors all miss (the most recently created hit among the
non-completed annotations); it returns `none` when every non-completed
annotation misses; any returned annotation is a non-completed member that
hits; and of two adjacent non-completed hits the later one wins. -/
theorem findAnnotAtPoint_spec (p : Point) :
    (∀ (pre : List Annot) (a : Annot) (post : List Annot),
        a.completed = false → highlightHitTest p a.highlight = true →
        (∀ b ∈ post, b.completed = false → highlightHitTest p b.highlight = false) →
        findAnnotAtPoint (pre ++ a :: post) p = some a)
    ∧ (∀ l : List Annot,
        (∀ b ∈ l, b.completed = false → highlightHitTest p b.highlight = false) →
        findAnnotAtPoint l p = none)
    ∧ (∀ (l : List Annot) (a : Annot),
        findAnnotAtPoint l p = some a →
        a ∈ l ∧ a.completed = false ∧ highlightHitTest p a.highlight = true)
    ∧ (∀ (l : List Annot) (a b : Annot),
        a.completed = false → b.completed = false →
        highlightHitTest p a.highlight = true →
        highlightHitTest p b.highlight = true →
        findAnnotAtPoint (l ++ [a, b]) p = some b) := by
  have part1 : ∀ (pre : List Annot) (a : Annot) (post : List Annot),
      a.completed = false → highlightHitTest p a.highlight = true →
      (∀ b ∈ post, b.completed = false → highlightHitTest p b.highlight = false) →
      findAnnotAtPoint (pre ++ a :: post) p = some a := by
    intro pre a post hac hah hpost
    unfold findAnnotAtPoint
    rw [List.filter_append, List.filter_cons_of_pos (by simp [hac]),
      List.reverse_append, List.reverse_cons, List.append_assoc,
      find?_append_of_forall_false _ _ _ ?_, List.singleton_append]
    · exact List.find?_cons_of_pos _ hah
    · intro x hx
      rw [List.mem_reverse, List.mem_filter] at hx
      exact hpost x hx.1 (by simpa using hx.2)
  refine ⟨part1, ?_, ?_, ?_⟩
  · intro l hl
    unfold findAnnotAtPoint
    rw [List.find?_eq_none]
    intro x hx
    rw [List.mem_reverse, List.mem_filter] at hx
    simp [hl x hx.1 (by simpa using hx.2)]
  · intro l a h
    unfold findAnnotAtPoint at h
    have h1 := List.find?_some h
    have h2 := List.mem_of_find?_eq_some h
    rw [List.mem_reverse, List.mem_filter] at h2
    exact ⟨h2.1, by simpa using h2.2, h1⟩
  · intro l a b _hac hbc _hah hbh
    have := part1 (l ++ [a]) b [] hbc hbh (by simp)
    simpa [List.append_assoc] using this

/-- C1 witness: two overlapping non-completed rectangles both containing
the point; the later annotation is returned. -/
theorem findAnnotAtPoint_spec_witness :
    ((⟨"A", "", .rect 0 0 10 10 "c", "c", 1, [], false⟩ : Annot).completed = false
      ∧ (⟨"B", "", .rect 5 5 10 10 "c", "c", 2, [], false⟩ : Annot).completed = false
      ∧ highlightHitTest ⟨6, 6⟩ (Highlight.rect 0 0 10 10 "c") = true
      ∧ highlightHitTest ⟨6, 6⟩ (Highlight.rect 5 5 10 10 "c") = true)
    ∧ findAnnotAtPoint
        [⟨"A", "", .rect 0 0 10 10 "c", "c", 1, [], false⟩,
         ⟨"B", "", .rect 5 5 10 10 "c", "c", 2, [], false⟩] ⟨6, 6⟩
      = some ⟨"B", "", .rect 5 5 10 10 "c", "c", 2, [], false⟩ :=
  ⟨⟨rfl, rfl, by decide, by decide⟩,
    (findAnnotAtPoint_spec ⟨6, 6⟩).2.2.2 []
      ⟨"A", "", .rect 0 0 10 10 "c", "c", 1, [], false⟩
      ⟨"B", "", .rect 5 5 10 10 "c", "c", 2, [], false⟩
      rfl rfl (by decide) (by decide)⟩

/-- C5: a completed drag gesture always clears the drag state, and never
stages a highlight when the rectangle is 10 px or less in either dimension
or the brush collected 2 or fewer points. -/
theorem mouseUp_degenerate_spec (sp : Point) (annCount : ℕ) (bs tw th : ℚ)
    (s : DrawState) :
    ((handleWindowMouseUp sp annCount bs tw th s).dragStart = none
      ∧ (handleWindowMouseUp sp annCount bs tw th s).dragEnd = none
      ∧ (handleWindowMouseUp sp annCount bs tw th s).brushPoints = []
      ∧ (handleWindowMouseUp sp annCount bs tw th s).isDrawing = false)
    ∧ (∀ ds de, s.activeTool = Tool.select → s.dragStart = some ds →
        s.dragEnd = some de →
        (|de.x - ds.x| ≤ 10 ∨ |de.y - ds.y| ≤ 10) →
        (handleWindowMouseUp sp annCount bs tw th s).pendingHighlight
            = s.pendingHighlight
          ∧ (handleWindowMouseUp sp annCount bs tw th s).pendingStrokes
            = s.pendingStrokes)
    ∧ (s.activeTool = Tool.brush → s.brushPoints.length ≤ 2 →
        (handleWindowMouseUp sp annCount bs tw th s).pendingStrokes
            = s.pendingStrokes
          ∧ (handleWindowMouseUp sp annCount bs tw th s).pendingHighlight
            = s.pendingHighlight) := by
  obtain ⟨tool, isD, dS, dE, bp, ps, ph, pc, si, ip⟩ := s
  refine ⟨⟨rfl, rfl, rfl, ?_⟩, ?_, ?_⟩
  · cases tool <;> cases dS <;> cases dE <;>
      simp [handleWindowMouseUp] <;> split_ifs <;> rfl
  · rintro ds de rfl rfl rfl hdeg
    have hcond : ¬(10 < |de.x - ds.x| ∧ 10 < |de.y - ds.y|) := by
      rcases hdeg with hle | hle
      · exact fun hc => absurd hc.1 (not_lt.mpr hle)
      · exact fun hc => absurd hc.2 (not_lt.mpr hle)
    refine ⟨?_, ?_⟩ <;> simp [handleWindowMouseUp, hcond]
  · rintro rfl hlen
    have hcond : ¬ 2 < bp.length := not_lt.mpr hlen
    refine ⟨?_, ?_⟩ <;> simp [handleWindowMouseUp, hcond]

/-- C5 witness: a 10×40 rectangle drag (width not strictly above 10) and a
two-point brush gesture stage nothing. -/
theorem mouseUp_degenerate_spec_witness :
    ((|(10 : ℚ) - 0| ≤ 10 ∨ |(40 : ℚ) - 0| ≤ 10)
      ∧ (handleWindowMouseUp ⟨1, 1⟩ 0 20 500 500
          ⟨Tool.select, true, some ⟨0, 0⟩, some ⟨10, 40⟩, [], [],
            none, none, false, none⟩).pendingHighlight = none
      ∧ (handleWindowMouseUp ⟨1, 1⟩ 0 20 500 500
          ⟨Tool.select, true, some ⟨0, 0⟩, some ⟨10, 40⟩, [], [],
            none, none, false, none⟩).pendingStrokes = [])
    ∧ (([(⟨1, 1⟩ : Point), ⟨2, 2⟩]).length ≤ 2
      ∧ (handleWindowMouseUp ⟨1, 1⟩ 0 20 500 500
          ⟨Tool.brush, true, none, none, [⟨1, 1⟩, ⟨2, 2⟩], [],
            none, some "c", false, none⟩).pendingStrokes = []) :=
  ⟨⟨Or.inl (by decide),
    ((mouseUp_degenerate_spec ⟨1, 1⟩ 0 20 500 500
        ⟨Tool.select, true, some ⟨0, 0⟩, some ⟨10, 40⟩, [], [],
          none, none, false, none⟩).2.1 ⟨0, 0⟩ ⟨10, 40⟩
        rfl rfl rfl (Or.inl (by decide))).1,
    ((mouseUp_degenerate_spec ⟨1, 1⟩ 0 20 500 500
        ⟨Tool.select, true, some ⟨0, 0⟩, some ⟨10, 40⟩, [], [],
          none, none, false, none⟩).2.1 ⟨0, 0⟩ ⟨10, 40⟩
        rfl rfl rfl (Or.inl (by decide))).2⟩,
   ⟨by decide,
    ((mouseUp_degenerate_spec ⟨1, 1⟩ 0 20 500 500
        ⟨Tool.brush, true, none, none, [⟨1, 1⟩, ⟨2, 2⟩], [],
          none, some "c", false, none⟩).2.2 rfl (by decide)).1⟩⟩

theorem sqrtLeQ_iff (d t : ℚ) :
    sqrtLeQ d t = true ↔ Real.sqrt (d : ℝ) ≤ (t : ℝ) := by
  unfold sqrtLeQ
  rw [Bool.and_eq_true, decide_eq_true_eq, decide_eq_true_eq, Real.sqrt_le_iff]
  constructor
  · rintro ⟨ht, hdt⟩
    refine ⟨by exact_mod_cast ht, ?_⟩
    have h : (d : ℝ) ≤ (t : ℝ) * (t : ℝ) := by exact_mod_cast hdt
    rw [pow_two]
    exact h
  · rintro ⟨ht, hdt⟩
    rw [pow_two] at hdt
    exact ⟨by exact_mod_cast ht, by exact_mod_cast hdt⟩

/-- C7: for a stroke with at least two points, `isPointNearStroke` holds
exactly when the real-valued distance to some segment of consecutive
stroke points is at most `brushSize / 2 + 5`; and on a degenerate segment
the distance is the Euclidean point distance. -/
theorem isPointNearStroke_spec (p : Point) (stroke : BrushStroke)
    (h2 : 2 ≤ stroke.points.length) :
    (isPointNearStroke p stroke = true ↔
      ∃ i : ℕ, i + 1 < stroke.points.length ∧
        distanceToLineSegment p (stroke.points.getD i default)
            (stroke.points.getD (i + 1) default)
          ≤ ((stroke.brushSize / 2 + 5 : ℚ) : ℝ))
    ∧ (∀ a : Point, distanceToLineSegment p a a
        = Real.sqrt (((p.x - a.x) ^ 2 + (p.y - a.y) ^ 2 : ℚ) : ℝ)) := by
  constructor
  · unfold isPointNearStroke
    rw [List.any_eq_true]
    constructor
    · rintro ⟨i, hi, hs⟩
      rw [List.mem_range] at hi
      exact ⟨i, by omega, (sqrtLeQ_iff _ _).mp hs⟩
    · rintro ⟨i, hi, hd⟩
      exact ⟨i, List.mem_range.mpr (by omega), (sqrtLeQ_iff _ _).mpr hd⟩
  · intro a
    unfold distanceToLineSegment distSqToSegment
    dsimp only
    rw [if_pos (by ring)]

/-- C7 witness: a point 3 px from the single segment of a two-point stroke
of brush size 10 (threshold 10). -/
theorem isPointNearStroke_spec_witness :
    2 ≤ (([(⟨0, 0⟩ : Point), ⟨10, 0⟩]) : List Point).length
    ∧ ((isPointNearStroke ⟨5, 3⟩ ⟨[⟨0, 0⟩, ⟨10, 0⟩], 10⟩ = true ↔
        ∃ i : ℕ, i + 1 < (⟨[⟨0, 0⟩, ⟨10, 0⟩], 10⟩ : BrushStroke).points.length ∧
          distanceToLineSegment ⟨5, 3⟩
              ((⟨[⟨0, 0⟩, ⟨10, 0⟩], 10⟩ : BrushStroke).points.getD i default)
              ((⟨[⟨0, 0⟩, ⟨10, 0⟩], 10⟩ : BrushStroke).points.getD (i + 1) default)
            ≤ (((⟨[⟨0, 0⟩, ⟨10, 0⟩], 10⟩ : BrushStroke).brushSize / 2 + 5 : ℚ) : ℝ))
      ∧ (∀ a : Point, distanceToLineSegment ⟨5, 3⟩ a a
          = Real.sqrt ((((5 : ℚ) - a.x) ^ 2 + ((3 : ℚ) - a.y) ^ 2 : ℚ) : ℝ))) :=
  ⟨by decide, isPointNearStroke_spec ⟨5, 3⟩ ⟨[⟨0, 0⟩, ⟨10, 0⟩], 10⟩ (by decide)⟩

theorem min_add_abs_sub (a b : ℚ) : min a b + |b - a| = max a b := by
  rcases le_total a b with h | h
  · rw [min_eq_left h, max_eq_right h, abs_of_nonneg (by linarith)]
    ring
  · rw [min_eq_right h, max_eq_left h, abs_of_nonpos (by linarith)]
    ring

set_option maxHeartbeats 1600000 in
/-- C10: every coordinate that enters a committed highlight lies within
the bitmap bounds: a mouse-down position inside the canvas rect maps into
the bitmap; each point recorded by a window mouse move is clamped into the
bitmap; the mouse-up staging and the save commit preserve in-bounds
geometry, so a committed rectangle's corners and every committed brush
point lie within the bitmap. -/
theorem committedGeometry_inBounds (cw chh : ℚ) (hcw : 0 ≤ cw) (hch : 0 ≤ chh) :
    (∀ rectW rectH clientX clientY rectLeft rectTop : ℚ, 0 < rectW → 0 < rectH →
        rectLeft ≤ clientX → clientX ≤ rectLeft + rectW →
        rectTop ≤ clientY → clientY ≤ rectTop + rectH →
        pointIn cw chh (getCanvasPos clientX clientY rectLeft rectTop rectW rectH cw chh))
    ∧ (∀ (rectW rectH clientX clientY rectLeft rectTop : ℚ) (s : DrawState),
        stateIn cw chh s →
        stateIn cw chh
          (handleWindowMouseMove cw chh rectW rectH clientX clientY rectLeft rectTop s))
    ∧ (∀ (sp : Point) (annCount : ℕ) (bs tw th : ℚ) (s : DrawState),
        stateIn cw chh s →
        stateIn cw chh (handleWindowMouseUp sp annCount bs tw th s))
    ∧ (∀ (txt : String) (bo : ℚ) (now : ℤ) (s : DrawState),
        stateIn cw chh s →
        optHighlightIn cw chh
          ((handleSaveAnnot txt bo now s).1.map fun a => a.highlight)) := by
  refine ⟨?_, ?_, ?_, ?_⟩
  · intro rectW rectH clientX clientY rectLeft rectTop hrW hrH hx1 hx2 hy1 hy2
    have hdx : (0 : ℚ) ≤ cw / rectW := div_nonneg hcw hrW.le
    have hdy : (0 : ℚ) ≤ chh / rectH := div_nonneg hch hrH.le
    have hwx : rectW * (cw / rectW) = cw := by field_simp
    have hwy : rectH * (chh / rectH) = chh := by field_simp
    refine ⟨mul_nonneg (by linarith) hdx, ?_, mul_nonneg (by linarith) hdy, ?_⟩
    · calc (clientX - rectLeft) * (cw / rectW)
          ≤ rectW * (cw / rectW) := mul_le_mul_of_nonneg_right (by linarith) hdx
        _ = cw := hwx
    · calc (clientY - rectTop) * (chh / rectH)
          ≤ rectH * (chh / rectH) := mul_le_mul_of_nonneg_right (by linarith) hdy
        _ = chh := hwy
  · intro rectW rectH clientX clientY rectLeft rectTop s hs
    obtain ⟨tool, isD, dS, dE, bp, ps, ph, pc, si, ip⟩ := s
    obtain ⟨hdS, hdE, hbp, hps, hph⟩ := hs
    have hpos : pointIn cw chh
        ⟨max 0 (min cw ((clientX - rectLeft) * (cw / rectW))),
         max 0 (min chh ((clientY - rectTop) * (chh / rectH)))⟩ :=
      ⟨le_max_left _ _, max_le hcw (min_le_left _ _),
       le_max_left _ _, max_le hch (min_le_left _ _)⟩
    unfold handleWindowMouseMove
    dsimp only
    split_ifs with hA hB
    · exact ⟨hdS, hpos, hbp, hps, hph⟩
    · refine ⟨hdS, hdE, ?_, hps, hph⟩
      intro q hq
      rcases List.mem_append.mp hq with hq | hq
      · exact hbp q hq
      · rw [List.mem_singleton] at hq
        subst hq
        exact hpos
    · exact ⟨hdS, hdE, hbp, hps, hph⟩
  · intro sp annCount bs tw th s hs
    obtain ⟨tool, isD, dS, dE, bp, ps, ph, pc, si, ip⟩ := s
    obtain ⟨hdS, hdE, hbp, hps, hph⟩ := hs
    have hemp : ∀ q : Point, q ∈ ([] : List Point) → pointIn cw chh q :=
      fun q hq => absurd hq (List.not_mem_nil q)
    cases tool with
    | select =>
      cases dS with
      | none =>
        cases dE with
        | none => exact ⟨trivial, trivial, hemp, hps, hph⟩
        | some deP => exact ⟨trivial, trivial, hemp, hps, hph⟩
      | some dsP =>
        cases dE with
        | none => exact ⟨trivial, trivial, hemp, hps, hph⟩
        | some deP =>
          obtain ⟨hds1, hds2, hds3, hds4⟩ := hdS
          obtain ⟨hde1, hde2, hde3, hde4⟩ := hdE
          by_cases hwh : 10 < |deP.x - dsP.x| ∧ 10 < |deP.y - dsP.y|
          · simp only [handleWindowMouseUp, hwh, if_true]
            refine ⟨trivial, trivial, hemp, hps, ?_, ?_⟩
            · exact ⟨le_min hds1 hde1, le_trans (min_le_left _ _) hds2,
                le_min hds3 hde3, le_trans (min_le_left _ _) hds4⟩
            · refine ⟨?_, ?_, ?_, ?_⟩ <;> dsimp only
              · rw [min_add_abs_sub]
                exact le_trans hds1 (le_max_left _ _)
              · rw [min_add_abs_sub]
                exact max_le hds2 hde2
              · rw [min_add_abs_sub]
                exact le_trans hds3 (le_max_left _ _)
              · rw [min_add_abs_sub]
                exact max_le hds4 hde4
          · simp only [handleWindowMouseUp, hwh, if_false]
            exact ⟨trivial, trivial, hemp, hps, hph⟩
    | brush =>
      have hps2 : strokesIn cw chh (ps ++ [⟨bp, bs⟩]) := by
        intro st hst
        rcases List.mem_append.mp hst with h | h
        · exact hps st h
        · rw [List.mem_singleton] at h
          subst h
          intro q hq
          exact hbp q hq
      by_cases hlen : 2 < bp.length
      · cases si with
        | true =>
          simp only [handleWindowMouseUp, hlen, if_true]
          exact ⟨trivial, trivial, hemp, hps2, hph⟩
        | false =>
          simp only [handleWindowMouseUp, hlen, if_true]
          exact ⟨trivial, trivial, hemp, hps2, hph⟩
      · simp only [handleWindowMouseUp, hlen, if_false]
        exact ⟨trivial, trivial, hemp, hps, hph⟩
  · intro txt bo now s hs
    obtain ⟨tool, isD, dS, dE, bp, ps, ph, pc, si, ip⟩ := s
    obtain ⟨hdS, hdE, hbp, hps, hph⟩ := hs
    unfold handleSaveAnnot
    dsimp only
    cases ps with
    | nil =>
      cases ph with
      | none => exact trivial
      | some hl => exact hph
    | cons st sts =>
      cases pc with
      | none =>
        cases ph with
        | none => exact trivial
        | some hl => exact hph
      | some c => exact hps

/-- C10 witness: a concrete in-bounds brush gesture stays in bounds
through mouse-up staging and through the save commit. -/
theorem committedGeometry_inBounds_witness :
    ((0 : ℚ) ≤ 500 ∧ (0 : ℚ) ≤ 400
      ∧ stateIn 500 400
          ⟨Tool.brush, true, none, none, [⟨1, 1⟩, ⟨2, 2⟩, ⟨500, 400⟩], [],
            none, some "c", false, none⟩)
    ∧ stateIn 500 400
        (handleWindowMouseUp ⟨1, 1⟩ 0 20 900 900
          ⟨Tool.brush, true, none, none, [⟨1, 1⟩, ⟨2, 2⟩, ⟨500, 400⟩], [],
            none, some "c", false, none⟩)
    ∧ optHighlightIn 500 400
        ((handleSaveAnnot "note" (2/5) 77
          ⟨Tool.brush, false, none, none, [],
            [⟨[⟨1, 1⟩, ⟨2, 2⟩, ⟨500, 400⟩], 20⟩],
            none, some "c", false, none⟩).1.map fun a => a.highlight) :=
  ⟨⟨by decide, by decide, by decide⟩,
    (committedGeometry_inBounds 500 400 (by decide) (by decide)).2.2.1
      ⟨1, 1⟩ 0 20 900 900
      ⟨Tool.brush, true, none, none, [⟨1, 1⟩, ⟨2, 2⟩, ⟨500, 400⟩], [],
        none, some "c", false, none⟩ (by decide),
    (committedGeometry_inBounds 500 400 (by decide) (by decide)).2.2.2
      "note" (2/5) 77
      ⟨Tool.brush, false, none, none, [],
        [⟨[⟨1, 1⟩, ⟨2, 2⟩, ⟨500, 400⟩], 20⟩],
        none, some "c", false, none⟩ (by decide)⟩

end ImageAnnotate
